import Mathlib

/-!
# Verification of the sc2patch HTML→structured-change normalization core

Shallow embedding of the normalization engine of the `sc2patch` repository:
the tree normalizer (`sc2patches/normalize.py`), the unified change extractor
(`sc2patches/parsers/unified.py`), the pattern detector
(`sc2patches/parsers/base.py`), the fallback and nested-strong parsers
(`sc2patches/parsers/fallback.py`, `sc2patches/parsers/nested_strong.py`),
and the body extractor (`sc2patches/core/extraction.py`).

Python strings are modelled as lists of natural-number code points
(`List Nat`); Python's ASCII-relevant `str.upper` / `str.lower` are modelled
on code points.  BeautifulSoup documents are modelled by the `Html` inductive
below, with element traversal functions mirroring the BeautifulSoup calls the
source makes (`find`, `find_all(..., recursive=False)`, `get_text(strip=True)`,
`children`, `find_next_sibling`).

The functions `detect_entity_from_text`, `detect_section_type` and
`load_units_database` are imported by the parsers from `sc2patches.parse`, but
the revision of `parse.py` in the tree no longer defines them (it was rewritten
around an LLM pipeline); where needed they are modelled from the specification,
as marked in their doc comments.
-/

/-- A Python string modelled as its list of Unicode code points. -/
abbrev PyStr := List Nat

/-- Code points of a Lean string literal (used to write concrete `PyStr`s). -/
def str (s : String) : PyStr := s.data.map Char.toNat

/-- Models Python `str.lower` on one code point (ASCII range, as exercised by
the ASCII keywords and entity names the source compares against). -/
def lowC (n : Nat) : Nat := if 65 ≤ n ∧ n ≤ 90 then n + 32 else n

/-- Models Python `str.upper` on one code point (ASCII range). -/
def upC (n : Nat) : Nat := if 97 ≤ n ∧ n ≤ 122 then n - 32 else n

/-- Python `s.lower()`. -/
def lowerS (s : PyStr) : PyStr := s.map lowC

/-- Python `s.upper()`. -/
def upperS (s : PyStr) : PyStr := s.map upC

/-- Python `pat in hay` (substring containment). -/
def containsSub (hay pat : PyStr) : Bool := decide (pat <:+: hay)

/-- Python whitespace test for `str.strip` (space, tab, LF, CR, FF, VT). -/
def isWs (n : Nat) : Bool := n = 32 || n = 9 || n = 10 || n = 13 || n = 12 || n = 11

/-- Python `s.strip()`. -/
def stripS (s : PyStr) : PyStr :=
  ((s.dropWhile isWs).reverse.dropWhile isWs).reverse

theorem upC_lowC (n : Nat) : upC (lowC n) = upC n := by
  unfold upC lowC; split_ifs <;> omega

theorem lowC_upC (n : Nat) : lowC (upC n) = lowC n := by
  unfold upC lowC; split_ifs <;> omega

theorem infix_map {α β : Type} (f : α → β) {l₁ l₂ : List α} (h : l₁ <:+: l₂) :
    l₁.map f <:+: l₂.map f := by
  obtain ⟨s, t, rfl⟩ := h
  exact ⟨s.map f, t.map f, by simp⟩

theorem lowC_comp_upC : lowC ∘ upC = lowC := by
  funext n; exact lowC_upC n

theorem upC_comp_lowC : upC ∘ lowC = upC := by
  funext n; exact upC_lowC n

/-- Case-insensitive containment stated through `upperS` equals the one stated
through `lowerS`. -/
theorem containsSub_upper_eq_lower (t pat : PyStr) :
    containsSub (upperS t) (upperS pat) = containsSub (lowerS t) (lowerS pat) := by
  simp only [containsSub, decide_eq_decide]
  constructor
  · intro h
    have h2 := infix_map lowC h
    simpa [upperS, lowerS, List.map_map, lowC_comp_upC] using h2
  · intro h
    have h2 := infix_map upC h
    simpa [upperS, lowerS, List.map_map, upC_comp_lowC] using h2

/-- `Race` enum from `sc2patches/models.py`. -/
inductive Race where
  | TERRAN | ZERG | PROTOSS | NEUTRAL
deriving DecidableEq, Repr

/-- The string value of the `Race` str-enum. -/
def Race.valueStr : Race → PyStr
  | .TERRAN => str "terran"
  | .ZERG => str "zerg"
  | .PROTOSS => str "protoss"
  | .NEUTRAL => str "neutral"

/-- `SourceSection` enum from `sc2patches/models.py`. -/
inductive SourceSection where
  | VERSUS_BALANCE | COOP | GENERAL | BUG_FIXES | UNKNOWN
deriving DecidableEq, Repr

/-- A raw change record as produced by the parsers
(`RawChange(entity_id=…, raw_text=…, section=…)`). -/
structure RawChange where
  entity_id : PyStr
  raw_text : PyStr
  «section» : SourceSection
deriving DecidableEq, Repr

/-- `UnifiedParser._detect_section_type` from `sc2patches/parsers/unified.py`.
Also stands for the `detect_section_type` that `nested_strong.py` imports from
`sc2patches.parse` (absent from that module's current revision); modelled from
the spec §4.2, whose keyword test coincides with this method. -/
def detect_section_type (text : PyStr) : SourceSection :=
  let u := upperS text
  if containsSub u (str "BUG") || containsSub u (str "FIX") then .BUG_FIXES
  else if containsSub u (str "CO-OP") || containsSub u (str "COOP") then .COOP
  else if containsSub u (str "VERSUS") || containsSub u (str "BALANCE") then .VERSUS_BALANCE
  else if containsSub u (str "GENERAL") then .GENERAL
  else .UNKNOWN

/-- The section classifier as the specification words it (§4.2): a
priority-ordered, case-insensitive keyword test with lower-case keywords. -/
def classify_spec (text : PyStr) : SourceSection :=
  let l := lowerS text
  if containsSub l (str "bug") || containsSub l (str "fix") then .BUG_FIXES
  else if containsSub l (str "co-op") || containsSub l (str "coop") then .COOP
  else if containsSub l (str "versus") || containsSub l (str "balance") then .VERSUS_BALANCE
  else if containsSub l (str "general") then .GENERAL
  else .UNKNOWN

/-- The units database as the parsers consume it: per race, a mapping from
entity display name to entity id (Python `dict[str, dict[str, str]]` keyed by
the race's string value, in insertion order).  `load_units_database` itself is
I/O (absent from `sc2patches.parse`'s current revision), so the database is a
parameter throughout. -/
abbrev UnitsDb := List (Race × List (PyStr × PyStr))

/-- Entries registered under one faction (Python `units_db[race]`, empty when
the key is absent). -/
def dbEntries (db : UnitsDb) (r : Race) : List (PyStr × PyStr) :=
  match db.find? (fun p => p.1 = r) with
  | some p => p.2
  | none => []

/-- Longest-name entry of a list, earlier entries winning ties. -/
def pickLongest : List (PyStr × PyStr) → Option (PyStr × PyStr)
  | [] => none
  | e :: es =>
    match pickLongest es with
    | none => some e
    | some b => if b.1.length > e.1.length then some b else some e

/-- Modelled from the spec: `detect_entity_from_text` is imported by every
pattern parser from `sc2patches.parse`, but that module's current revision no
longer defines it.  Spec §4.1: case-insensitive substring search of the
registered display names of the given faction inside the change text,
preferring the longest matching name, returning `{faction}-unknown` when none
matches. -/
def detect_entity_from_text (text : PyStr) (race : Race) (db : UnitsDb) : PyStr :=
  match pickLongest ((dbEntries db race).filter
      (fun e => containsSub (lowerS text) (lowerS e.1))) with
  | some e => e.2
  | none => race.valueStr ++ str "-unknown"

theorem pickLongest_ne_none {l : List (PyStr × PyStr)} (h : l ≠ []) :
    pickLongest l ≠ none := by
  cases l with
  | nil => exact absurd rfl h
  | cons a as =>
    simp only [pickLongest]
    cases pickLongest as with
    | none => simp
    | some b =>
      by_cases hl : a.1.length < b.1.length <;> simp [hl]

theorem pickLongest_mem {l : List (PyStr × PyStr)} {e : PyStr × PyStr}
    (h : pickLongest l = some e) : e ∈ l := by
  induction l generalizing e with
  | nil => simp [pickLongest] at h
  | cons a as ih =>
    simp only [pickLongest] at h
    cases hrec : pickLongest as with
    | none => rw [hrec] at h; simp at h; simp [h]
    | some b =>
      rw [hrec] at h
      by_cases hl : b.1.length > a.1.length
      · simp [hl] at h
        subst h
        exact List.mem_cons_of_mem _ (ih hrec)
      · simp [hl] at h
        simp [h]

theorem pickLongest_max {l : List (PyStr × PyStr)} {e : PyStr × PyStr}
    (h : pickLongest l = some e) : ∀ x ∈ l, x.1.length ≤ e.1.length := by
  induction l generalizing e with
  | nil => simp [pickLongest] at h
  | cons a as ih =>
    simp only [pickLongest] at h
    intro x hx
    cases hrec : pickLongest as with
    | none =>
      rw [hrec] at h
      simp at h
      subst h
      rcases List.mem_cons.mp hx with rfl | hxas
      · exact le_refl _
      · cases as with
        | nil => simp at hxas
        | cons b bs => exact absurd hrec (pickLongest_ne_none (by simp))
    | some b =>
      rw [hrec] at h
      by_cases hl : b.1.length > a.1.length
      · simp [hl] at h
        subst h
        rcases List.mem_cons.mp hx with rfl | hxas
        · omega
        · exact ih hrec x hxas
      · simp [hl] at h
        subst h
        rcases List.mem_cons.mp hx with rfl | hxas
        · exact le_refl _
        · have := ih hrec x hxas
          omega

/-- When no registered display name of the faction occurs (case-insensitively)
in the text, resolution returns the `{faction}-unknown` sentinel. -/
theorem detect_entity_no_match (text : PyStr) (race : Race) (db : UnitsDb)
    (h : ∀ e ∈ dbEntries db race, containsSub (lowerS text) (lowerS e.1) = false) :
    detect_entity_from_text text race db = race.valueStr ++ str "-unknown" := by
  unfold detect_entity_from_text
  have hfil : (dbEntries db race).filter
      (fun e => containsSub (lowerS text) (lowerS e.1)) = [] := by
    rw [List.filter_eq_nil_iff]
    intro e he
    simp [h e he]
  rw [hfil]
  rfl

/-- C1: entity resolution prefers the longest matching registered name: if `A`
and `B` are registered under the same faction, `B` is a proper substring of
`A`, `B`'s id is not shared by a differently-named entry, and the text
contains `A` (case-insensitively), then `resolve` never returns `B`'s id. -/
theorem C1_longest_match (db : UnitsDb) (race : Race) (text A idA B idB : PyStr)
    (hA : (A, idA) ∈ dbEntries db race)
    (_hB : (B, idB) ∈ dbEntries db race)
    (hsub : B <:+: A) (hne : B ≠ A)
    (hcontains : containsSub (lowerS text) (lowerS A) = true)
    (huniq : ∀ e ∈ dbEntries db race, e.2 = idB → e.1 = B) :
    detect_entity_from_text text race db ≠ idB := by
  have hBlt : B.length < A.length :=
    lt_of_le_of_ne hsub.sublist.length_le
      (fun hlen => hne (hsub.sublist.eq_of_length hlen))
  have hAf : (A, idA) ∈ (dbEntries db race).filter
      (fun e => containsSub (lowerS text) (lowerS e.1)) :=
    List.mem_filter.mpr ⟨hA, by simpa using hcontains⟩
  obtain ⟨e, he⟩ :
      ∃ e, pickLongest ((dbEntries db race).filter
        (fun e => containsSub (lowerS text) (lowerS e.1))) = some e := by
    cases hp : pickLongest ((dbEntries db race).filter
        (fun e => containsSub (lowerS text) (lowerS e.1))) with
    | none =>
      exact absurd hp (pickLongest_ne_none (List.ne_nil_of_mem hAf))
    | some e => exact ⟨e, rfl⟩
  unfold detect_entity_from_text
  rw [he]
  intro heq
  have hmem : e ∈ dbEntries db race :=
    List.mem_filter.mp (pickLongest_mem he) |>.1
  have heB : e.1 = B := huniq e hmem heq
  have hmax := pickLongest_max he (A, idA) hAf
  simp only at hmax
  rw [heB] at hmax
  omega

/-- Witness for C1 at a concrete catalog ("Widow Mine" / "Mine") and text. -/
theorem C1_longest_match_witness :
    detect_entity_from_text (str "Widow Mine damage reduced") Race.TERRAN
      [(Race.TERRAN, [(str "Widow Mine", str "terran-widow_mine"),
                      (str "Mine", str "terran-mine")])] ≠ str "terran-mine" :=
  C1_longest_match
    [(Race.TERRAN, [(str "Widow Mine", str "terran-widow_mine"),
                    (str "Mine", str "terran-mine")])]
    Race.TERRAN (str "Widow Mine damage reduced")
    (str "Widow Mine") (str "terran-widow_mine")
    (str "Mine") (str "terran-mine")
    (by decide) (by decide) (by decide) (by decide) (by decide) (by decide)

/-- A parsed document, as BeautifulSoup exposes it to the source: element tags
with a name, a class list and children, and navigable strings. -/
inductive Html where
  | tag (name : String) (classes : List String) (children : List Html)
  | txt (s : PyStr)

/-- Direct children (`element.children`; empty for a navigable string). -/
def Html.childrenL : Html → List Html
  | .tag _ _ cs => cs
  | .txt _ => []

/-- `element.name = n` (false for navigable strings, whose `.name` is None). -/
def isNamed (n : String) : Html → Bool
  | .tag m _ _ => m = n
  | .txt _ => false

/-- Does the element carry the given CSS class? -/
def hasClass (c : String) : Html → Bool
  | .tag _ cls _ => cls.contains c
  | .txt _ => false

/-- `soup.find("section", class_="blog")`'s test. -/
def isBlogSection (h : Html) : Bool := isNamed "section" h && hasClass "blog" h

/-- `soup.find("div", class_="mw-parser-output")`'s test. -/
def isMwOutput (h : Html) : Bool := isNamed "div" h && hasClass "mw-parser-output" h

/-- `get_text(strip=True)` over a list of nodes: stripped strings of all
navigable-string descendants, concatenated in document order. -/
def getTextL : List Html → PyStr
  | [] => []
  | .txt s :: rest => stripS s ++ getTextL rest
  | .tag _ _ cs :: rest => getTextL cs ++ getTextL rest

/-- `element.get_text(strip=True)`. -/
def Html.getText : Html → PyStr
  | .txt s => stripS s
  | .tag _ _ cs => getTextL cs

/-- First matching element among the nodes of a list and their descendants,
in document order (the search order of BeautifulSoup `find`/`find_all`). -/
def findDescL (p : Html → Bool) : List Html → Option Html
  | [] => none
  | c :: rest =>
    if p c then some c
    else
      match c with
      | .txt _ => findDescL p rest
      | .tag _ _ cs =>
        match findDescL p cs with
        | some r => some r
        | none => findDescL p rest

/-- `element.find(pred)`: first matching descendant (not the element itself). -/
def findDesc (p : Html → Bool) (h : Html) : Option Html :=
  findDescL p h.childrenL

/-- Plain existence of a matching node among a list of nodes and their
descendants (specification-side formulation of "the document contains …"). -/
def existsDescL (p : Html → Bool) : List Html → Bool
  | [] => false
  | c :: rest =>
    p c ||
    (match c with
     | .txt _ => false
     | .tag _ _ cs => existsDescL p cs) ||
    existsDescL p rest

theorem findDescL_isSome (p : Html → Bool) :
    (l : List Html) → (findDescL p l).isSome = existsDescL p l
  | [] => by simp [findDescL, existsDescL]
  | c :: rest => by
    cases c with
    | txt s =>
      have h2 := findDescL_isSome p rest
      by_cases hp : p (Html.txt s)
      · simp [findDescL, existsDescL, hp]
      · simp [findDescL, existsDescL, hp, h2]
    | tag n cls cs =>
      have h1 := findDescL_isSome p cs
      have h2 := findDescL_isSome p rest
      by_cases hp : p (Html.tag n cls cs)
      · simp [findDescL, existsDescL, hp]
      · cases hf : findDescL p cs with
        | some r =>
          rw [hf] at h1
          simp at h1
          simp [findDescL, existsDescL, hp, hf, h1, h2]
        | none =>
          rw [hf] at h1
          simp at h1
          simp [findDescL, existsDescL, hp, hf, h1, h2]
  termination_by l => sizeOf l

/-- `find_all(name, recursive=False)`: direct children with that tag name. -/
def directNamed (n : String) (h : Html) : List Html :=
  h.childrenL.filter (isNamed n)

/-- `li.find(text=True, recursive=False)`: first navigable string among the
direct children. -/
def firstDirectText : List Html → Option PyStr
  | [] => none
  | .txt s :: _ => some s
  | .tag _ _ _ :: rest => firstDirectText rest

/-- One `NormalizedItem` object of `sc2patches/normalize.py`.  The Python
objects are mutated in place through the `current_section` / `current_race` /
`current_entity` aliases, so the builder below works on an arena of nodes
addressed by allocation index; `nchildren` lists child indices.  (The unused
`level` field of the dataclass is not modelled: nothing reads it.) -/
structure NNode where
  ntype : String
  ntext : PyStr
  nchildren : List Nat
deriving DecidableEq, Repr

/-- Builder state of `normalize_html_to_tree`'s element loop. -/
structure NormState where
  store : List NNode
  roots : List Nat
  curSection : Option Nat
  curRace : Option Nat
  curEntity : Option Nat

/-- Allocate a fresh childless node, returning its index. -/
def newNode (st : NormState) (ty : String) (tx : PyStr) : Nat × NormState :=
  (st.store.length, { st with store := st.store ++ [⟨ty, tx, []⟩] })

/-- `parent.children.append(child)` on arena indices. -/
def appendChildId (st : NormState) (pid cid : Nat) : NormState :=
  { st with
    store :=
      match st.store[pid]? with
      | some n => st.store.set pid ⟨n.ntype, n.ntext, n.nchildren ++ [cid]⟩
      | none => st.store }

/-- Attach an existing node to a parent, or to `root_items` when there is no
parent. -/
def attach (st : NormState) (parent : Option Nat) (cid : Nat) : NormState :=
  match parent with
  | some pid => appendChildId st pid cid
  | none => { st with roots := st.roots ++ [cid] }

/-- Create a node and attach it (`X_item = NormalizedItem(...)` followed by the
`….children.append(X_item)` / `root_items.append(X_item)` pattern). -/
def pushUnder (st : NormState) (parent : Option Nat) (ty : String) (tx : PyStr) :
    Nat × NormState :=
  let (i, s1) := newNode st ty tx
  (i, attach s1 parent i)

/-- `race_names` of `normalize.py` (also used by `unified.py`'s `race_map`
keys and `detect_pattern`'s exact-case lists where noted). -/
def race_names_norm (t : PyStr) : Bool :=
  t = str "Terran" || t = str "Protoss" || t = str "Zerg" ||
  t = str "TERRAN" || t = str "PROTOSS" || t = str "ZERG"

/-- Section keywords of the H3 branch of `normalize_html_to_tree`. -/
def h3Keywords : List PyStr :=
  [str "BUG", str "FIX", str "CO-OP", str "COOP", str "GENERAL",
   str "QUALITY OF LIFE", str "BALANCE"]

/-- Section keywords of the nested-`<li><strong>` branch. -/
def ulKeywords : List PyStr :=
  [str "BUG", str "FIX", str "CO-OP", str "COOP", str "GENERAL",
   str "QUALITY OF LIFE", str "BALANCE UPDATE", str "BALANCE", str "MAPS"]

/-- `any(keyword in text_upper for keyword in …)`. -/
def anyKw (u : PyStr) (ks : List PyStr) : Bool := ks.any (fun k => containsSub u k)

/-- Parent choice `current_race or current_section or root`. -/
def raceOrSection (st : NormState) : Option Nat :=
  match st.curRace with
  | some i => some i
  | none => st.curSection

/-- Parent choice `current_entity or current_race or current_section or root`. -/
def entityRaceSection (st : NormState) : Option Nat :=
  match st.curEntity with
  | some i => some i
  | none => raceOrSection st

/-- One step of the innermost change loop (`for change_li in
…find_all("li", recursive=False)`). -/
def addChangeStep (pid : Nat) (s : NormState) (li : Html) : NormState :=
  let t := li.getText
  if t = [] then s else (pushUnder s (some pid) "change" t).2

/-- Innermost loop: change leaves from the direct `<li>` children of a `<ul>`,
appended under `pid`. -/
def addChanges (st : NormState) (pid : Nat) (ul2 : Html) : NormState :=
  (directNamed "li" ul2).foldl (addChangeStep pid) st

/-- One step of the middle loop of the race sub-branches. -/
def addEntityStep (rid : Nat) (s : NormState) (li : Html) : NormState :=
  match findDesc (isNamed "strong") li, findDesc (isNamed "ul") li with
  | some stg, some ul2 =>
    addChanges (pushUnder s (some rid) "entity" stg.getText).2
      (pushUnder s (some rid) "entity" stg.getText).1 ul2
  | _, _ => s

/-- Middle loop of the race sub-branches: entity + changes pairs from the
direct `<li>` children of a `<ul>`, appended under race node `rid`. -/
def addEntitiesWithChanges (st : NormState) (rid : Nat) (nestedUl : Html) : NormState :=
  (directNamed "li" nestedUl).foldl (addEntityStep rid) st

/-- One step of the outer loop of the sub-section branch (non-race labels are
skipped). -/
def addRaceStep (sid : Nat) (s : NormState) (li : Html) : NormState :=
  match findDesc (isNamed "strong") li, findDesc (isNamed "ul") li with
  | some stg, some nnu =>
    let ntext := stg.getText
    if race_names_norm ntext then
      addEntitiesWithChanges (pushUnder s (some sid) "race" ntext).2
        (pushUnder s (some sid) "race" ntext).1 nnu
    else s
  | _, _ => s

/-- Outer loop of the sub-section branch: race subtrees from the direct `<li>`
children of a `<ul>`, appended under section node `sid`. -/
def addRacesUnder (st : NormState) (sid : Nat) (nestedUl : Html) : NormState :=
  (directNamed "li" nestedUl).foldl (addRaceStep sid) st

/-- One direct `<li>` of a top-level `<ul>` (the body of
`for li in element.find_all("li", recursive=False)`). -/
def processLi (st : NormState) (li : Html) : NormState :=
  let text := li.getText
  if text = [] then st
  else
    match findDesc (isNamed "strong") li, findDesc (isNamed "ul") li with
    | some stg, some nestedUl =>
      let itemText := stg.getText
      if anyKw (upperS itemText) ulKeywords then
        addRacesUnder (pushUnder st st.curSection "section" itemText).2
          (pushUnder st st.curSection "section" itemText).1 nestedUl
      else if race_names_norm itemText then
        let rid := (pushUnder st st.curSection "race" itemText).1
        let s2 := addEntitiesWithChanges (pushUnder st st.curSection "race" itemText).2
          rid nestedUl
        { s2 with curRace := some rid, curEntity := none }
      else
        addChanges (pushUnder st (raceOrSection st) "entity" itemText).2
          (pushUnder st (raceOrSection st) "entity" itemText).1 nestedUl
    | none, some nestedUl =>
      match firstDirectText li.childrenL with
      | some et0 =>
        let et := stripS et0
        if et = [] then st
        else
          addChanges (pushUnder st (raceOrSection st) "entity" et).2
            (pushUnder st (raceOrSection st) "entity" et).1 nestedUl
      | none => st
    | _, _ =>
      (pushUnder st (entityRaceSection st) "change" text).2

/-- One direct child of the `<section class="blog">` element (the body of
`for element in blog.children`). -/
def processElement (st : NormState) (e : Html) : NormState :=
  match e with
  | .txt _ => st
  | .tag name _ _ =>
    if name = "h2" then
      let text := e.getText
      if race_names_norm text then
        { (pushUnder st none "race" text).2 with
            curRace := some (pushUnder st none "race" text).1, curEntity := none }
      else
        { (pushUnder st none "section" text).2 with
            curSection := some (pushUnder st none "section" text).1,
            curRace := none, curEntity := none }
    else if name = "h3" then
      let text := e.getText
      if race_names_norm text then
        { (pushUnder st st.curSection "race" text).2 with
            curRace := some (pushUnder st st.curSection "race" text).1,
            curEntity := none }
      else if anyKw (upperS text) h3Keywords then
        { (pushUnder st none "section" text).2 with
            curSection := some (pushUnder st none "section" text).1,
            curRace := none, curEntity := none }
      else
        { (pushUnder st (raceOrSection st) "entity" text).2 with
            curEntity := some (pushUnder st (raceOrSection st) "entity" text).1 }
    else if name = "h4" then
      let text := e.getText
      { (pushUnder st (raceOrSection st) "entity" text).2 with
          curEntity := some (pushUnder st (raceOrSection st) "entity" text).1 }
    else if name = "p" then
      match (findDesc (isNamed "b") e).orElse (fun _ => findDesc (isNamed "strong") e) with
      | some tg =>
        let text := tg.getText
        if text ≠ [] ∧ text.length < 50 then
          if race_names_norm text then
            { (pushUnder st st.curSection "race" text).2 with
                curRace := some (pushUnder st st.curSection "race" text).1,
                curEntity := none }
          else
            { (pushUnder st (raceOrSection st) "entity" text).2 with
                curEntity := some (pushUnder st (raceOrSection st) "entity" text).1 }
        else st
      | none => st
    else if name = "ul" then
      (directNamed "li" e).foldl processLi st
    else st

/-- `NormalizedItem` as the extractor sees it: a plain tree. -/
inductive NormalizedItem where
  | mk (ntype : String) (ntext : PyStr) (children : List NormalizedItem)

def NormalizedItem.ntype : NormalizedItem → String
  | .mk t _ _ => t

def NormalizedItem.ntext : NormalizedItem → PyStr
  | .mk _ s _ => s

def NormalizedItem.children : NormalizedItem → List NormalizedItem
  | .mk _ _ cs => cs

/-- Reconstruct the tree rooted at arena index `i`.  Children are always
allocated after their parent, so `store.length` fuel always suffices. -/
def denote (store : List NNode) : Nat → Nat → NormalizedItem
  | 0, _ => .mk "" [] []
  | fuel + 1, i =>
    match store[i]? with
    | none => .mk "" [] []
    | some n => .mk n.ntype n.ntext (n.nchildren.map (fun j => denote store fuel j))

/-- Initial state of the element loop. -/
def initNormState : NormState := ⟨[], [], none, none, none⟩

/-- `normalize_html_to_tree` from `sc2patches/normalize.py`. -/
def normalize_html_to_tree (soup : Html) : List NormalizedItem :=
  match findDesc isBlogSection soup with
  | none => []
  | some blog =>
    let st := blog.childrenL.foldl processElement initNormState
    st.roots.map (fun i => denote st.store st.store.length i)

/-- `race_map` of `UnifiedParser._extract_changes_from_tree`, in insertion
order (the order `startswith` race-prefix detection iterates it). -/
def race_map_items : List (PyStr × Race) :=
  [(str "Terran", .TERRAN), (str "TERRAN", .TERRAN),
   (str "Protoss", .PROTOSS), (str "PROTOSS", .PROTOSS),
   (str "Zerg", .ZERG), (str "ZERG", .ZERG)]

/-- `race_map.get(text)`. -/
def race_map_get (t : PyStr) : Option Race :=
  (race_map_items.find? (fun p => p.1 = t)).map (fun p => p.2)

/-- The race-prefix detection of the change branch: first `race_map` key that
is a prefix of the text, together with `text[len(key):].strip()`. -/
def race_prefix_strip (t : PyStr) : Option (Race × PyStr) :=
  match race_map_items.find? (fun p => p.1.isPrefixOf t) with
  | some p => some (p.2, stripS (t.drop p.1.length))
  | none => none

/-- `ui_patterns` of `unified.py` (presentation-only denylist). -/
def ui_patterns : List PyStr :=
  [str "button", str "tab-select", str "icon", str "wireframe", str "tooltip",
   str "sound", str "graphic", str "particle effect", str "visual animation",
   str "cosmetic"]

/-- `any(pattern in text_lower for pattern in ui_patterns)`. -/
def matchesUiDenylist (textLower : PyStr) : Bool :=
  ui_patterns.any (fun p => containsSub textLower p)

/-- `bug_fix_patterns` of `unified.py`. -/
def bug_fix_patterns : List PyStr :=
  [str "fixed an issue", str "fixed a display issue", str "fixed a bug",
   str "fixed multiple", str "fixed various"]

/-- `any(pattern in text_lower for pattern in bug_fix_patterns)`. -/
def matchesBugFixDenylist (textLower : PyStr) : Bool :=
  bug_fix_patterns.any (fun p => containsSub textLower p)

/-- First database race whose entry dict contains the name, with the entry's
id (the `for race_str, entities in self.units_db.items()` lookup). -/
def db_find_entity (db : UnitsDb) (tx : PyStr) : Option (Race × PyStr) :=
  match db with
  | [] => none
  | (r, entries) :: rest =>
    match (entries.find? (fun e => e.1 = tx)).map (fun e => e.2) with
    | some eid => some (r, eid)
    | none => db_find_entity rest tx

/-- The change branch's race/text adjustment: with no race context, a race
name prefixing the text is stripped and becomes the race (falling back to
NEUTRAL); with a race context the text is untouched. -/
def change_ctx (race : Option Race) (t : PyStr) : Race × PyStr :=
  race.elim ((race_prefix_strip t).elim (Race.NEUTRAL, t) (fun rs => rs))
    (fun r => (r, t))

/-- `UnifiedParser._extract_changes_from_tree` from
`sc2patches/parsers/unified.py`.  Returns the extracted changes together with
the post-state of the item list: the loop reassigns its `current_race` /
`current_section` variables (the effect persists for later list items) and
mutates race-prefixed change items' `text` in place, so both are part of the
result. -/
def extract_loop (db : UnitsDb) :
    List NormalizedItem → Option Race → SourceSection → Option PyStr →
    List RawChange × List NormalizedItem
  | [], _, _, _ => ([], [])
  | .mk ty tx cs :: rest, race, sec, ent =>
    if ty = "section" then
      let st := detect_section_type tx
      let sub := extract_loop db cs race st ent
      let rst := extract_loop db rest race sec ent
      (sub.1 ++ rst.1, .mk ty tx sub.2 :: rst.2)
    else if ty = "race" then
      (race_map_get tx).elim
        (let rst := extract_loop db rest race sec ent
         (rst.1, .mk ty tx cs :: rst.2))
        (fun r =>
          let sec' := if sec = .UNKNOWN then .VERSUS_BALANCE else sec
          let sub := extract_loop db cs (some r) sec' none
          let rst := extract_loop db rest race sec' ent
          (sub.1 ++ rst.1, .mk ty tx sub.2 :: rst.2))
    else if ty = "entity" then
      race.elim
        ((db_find_entity db tx).elim
          (let rst := extract_loop db rest race sec ent
           (rst.1, .mk ty tx cs :: rst.2))
          (fun re =>
            let sub := extract_loop db cs (some re.1) sec (some re.2)
            let rst := extract_loop db rest race sec ent
            (sub.1 ++ rst.1, .mk ty tx sub.2 :: rst.2)))
        (fun r =>
          let eid := detect_entity_from_text tx r db
          let sub := extract_loop db cs (some r) sec (some eid)
          let rst := extract_loop db rest race sec ent
          (sub.1 ++ rst.1, .mk ty tx sub.2 :: rst.2))
    else if ty = "change" then
      let race1 := (change_ctx race tx).1
      let tx1 := (change_ctx race tx).2
      let textLower := lowerS tx1
      let rst := extract_loop db rest (some race1) sec ent
      if matchesUiDenylist textLower then
        (rst.1, .mk ty tx1 cs :: rst.2)
      else if matchesBugFixDenylist textLower then
        (rst.1, .mk ty tx1 cs :: rst.2)
      else
        let eid := ent.getD (detect_entity_from_text tx1 race1 db)
        if (str "neutral-").isPrefixOf eid &&
            !(sec = .VERSUS_BALANCE || sec = .GENERAL) then
          (rst.1, .mk ty tx1 cs :: rst.2)
        else if !(sec = .VERSUS_BALANCE || sec = .UNKNOWN || sec = .GENERAL) then
          (rst.1, .mk ty tx1 cs :: rst.2)
        else
          (⟨eid, tx1, sec⟩ :: rst.1, .mk ty tx1 cs :: rst.2)
    else
      let rst := extract_loop db rest race sec ent
      (rst.1, .mk ty tx cs :: rst.2)
  termination_by items => sizeOf items

/-- `UnifiedParser.parse`: normalize, then extract with default context. -/
def unified_parse (db : UnitsDb) (soup : Html) : List RawChange :=
  (extract_loop db (normalize_html_to_tree soup) none .UNKNOWN none).1

/-- Every change the extractor emits carries a section in
{VersusBalance, Unknown, General}: the section filter guards every emission. -/
theorem extract_loop_sections (db : UnitsDb) :
    (items : List NormalizedItem) → (race : Option Race) → (sec : SourceSection) →
    (ent : Option PyStr) →
    ∀ rc ∈ (extract_loop db items race sec ent).1,
      rc.«section» = .VERSUS_BALANCE ∨ rc.«section» = .UNKNOWN ∨ rc.«section» = .GENERAL
  | [], _, _, _ => by simp [extract_loop]
  | .mk ty tx cs :: rest, race, sec, ent => by
    intro rc hrc
    rw [extract_loop] at hrc
    split at hrc
    · rcases List.mem_append.mp hrc with h | h
      · exact extract_loop_sections db cs race _ ent rc h
      · exact extract_loop_sections db rest race sec ent rc h
    · split at hrc
      · cases hr : race_map_get tx with
        | none =>
          rw [hr] at hrc
          simp only [Option.elim] at hrc
          exact extract_loop_sections db rest race sec ent rc hrc
        | some r =>
          rw [hr] at hrc
          simp only [Option.elim] at hrc
          rcases List.mem_append.mp hrc with h | h
          · exact extract_loop_sections db cs (some r) _ none rc h
          · exact extract_loop_sections db rest race _ ent rc h
      · split at hrc
        · cases race with
          | none =>
            simp only [Option.elim] at hrc
            cases hdb : db_find_entity db tx with
            | none =>
              rw [hdb] at hrc
              simp only [Option.elim] at hrc
              exact extract_loop_sections db rest none sec ent rc hrc
            | some re =>
              rw [hdb] at hrc
              simp only [Option.elim] at hrc
              rcases List.mem_append.mp hrc with h | h
              · exact extract_loop_sections db cs (some re.1) sec (some re.2) rc h
              · exact extract_loop_sections db rest none sec ent rc h
          | some r =>
            simp only [Option.elim] at hrc
            rcases List.mem_append.mp hrc with h | h
            · exact extract_loop_sections db cs (some r) sec _ rc h
            · exact extract_loop_sections db rest (some r) sec ent rc h
        · split at hrc
          · -- ty = "change"
            simp only at hrc
            split at hrc
            · exact extract_loop_sections db rest _ sec ent rc hrc
            · split at hrc
              · exact extract_loop_sections db rest _ sec ent rc hrc
              · split at hrc
                · exact extract_loop_sections db rest _ sec ent rc hrc
                · split at hrc
                  · exact extract_loop_sections db rest _ sec ent rc hrc
                  · rename_i hsec
                    rcases List.mem_cons.mp hrc with h | h
                    · subst h
                      simp only [Bool.not_eq_true', Bool.not_eq_false,
                        Bool.or_eq_true, decide_eq_true_eq] at hsec
                      simp only [RawChange.mk.injEq]
                      tauto
                    · exact extract_loop_sections db rest _ sec ent rc h
          · exact extract_loop_sections db rest race sec ent rc hrc
  termination_by items => sizeOf items

/-- C5: the Change Extractor never emits a RawChange whose inherited section
category is BugFix or CoOp: a change's recorded section is the section context
at its leaf, and every emission is guarded by the section filter. -/
theorem C5_no_bugfix_coop_output (db : UnitsDb) (items : List NormalizedItem)
    (race : Option Race) (sec : SourceSection) (ent : Option PyStr) :
    ∀ rc ∈ (extract_loop db items race sec ent).1,
      rc.«section» ≠ SourceSection.BUG_FIXES ∧ rc.«section» ≠ SourceSection.COOP := by
  intro rc hrc
  rcases extract_loop_sections db items race sec ent rc hrc with h | h | h <;>
    rw [h] <;> exact ⟨by simp, by simp⟩

set_option maxRecDepth 10000 in
unseal extract_loop in
/-- Witness for C5 at a concrete emitted change. -/
theorem C5_no_bugfix_coop_output_witness :
    (extract_loop [] [NormalizedItem.mk "change" (str "Stimpack cost reduced") []]
        (some Race.TERRAN) SourceSection.VERSUS_BALANCE none).1
      = [⟨str "terran-unknown", str "Stimpack cost reduced", SourceSection.VERSUS_BALANCE⟩] ∧
    (⟨str "terran-unknown", str "Stimpack cost reduced",
        SourceSection.VERSUS_BALANCE⟩ : RawChange).«section» ≠ SourceSection.BUG_FIXES ∧
    (⟨str "terran-unknown", str "Stimpack cost reduced",
        SourceSection.VERSUS_BALANCE⟩ : RawChange).«section» ≠ SourceSection.COOP :=
  ⟨by decide,
   C5_no_bugfix_coop_output []
     [NormalizedItem.mk "change" (str "Stimpack cost reduced") []]
     (some Race.TERRAN) SourceSection.VERSUS_BALANCE none
     ⟨str "terran-unknown", str "Stimpack cost reduced", SourceSection.VERSUS_BALANCE⟩
     (by decide)⟩

set_option maxRecDepth 10000 in
unseal extract_loop in
/-- Counterexample to C7 as stated: the leaf "Fixed an issue with creep" in a
VersusBalance section does not match the UI/cosmetic denylist and its
inherited category is not BugFix or CoOp, yet it yields no RawChange (it is
dropped by the separate bug-fix text denylist). -/
theorem C7_counterexample :
    (extract_loop [] [NormalizedItem.mk "change" (str "Fixed an issue with creep") []]
        (some Race.TERRAN) SourceSection.VERSUS_BALANCE none).1 = [] ∧
    matchesUiDenylist (lowerS (str "Fixed an issue with creep")) = false ∧
    SourceSection.VERSUS_BALANCE ≠ SourceSection.BUG_FIXES ∧
    SourceSection.VERSUS_BALANCE ≠ SourceSection.COOP := by
  refine ⟨by decide, by decide, by decide, by decide⟩

/-- C7 amended: a Change leaf, evaluated in its inherited context, is dropped
exactly when one of the extractor's four named leaf rules fires: the
UI/cosmetic denylist, the bug-fix text denylist, the neutral-entity rule
(neutral-prefixed id outside VersusBalance/General sections), or the section
rule (inherited category BugFix or CoOp). -/
theorem C7_drop_characterization (db : UnitsDb) (t : PyStr) (race : Option Race)
    (sec : SourceSection) (ent : Option PyStr) :
    (extract_loop db [NormalizedItem.mk "change" t []] race sec ent).1 = [] ↔
      (matchesUiDenylist (lowerS (change_ctx race t).2) = true ∨
       matchesBugFixDenylist (lowerS (change_ctx race t).2) = true ∨
       ((str "neutral-").isPrefixOf
            (ent.getD (detect_entity_from_text (change_ctx race t).2
              (change_ctx race t).1 db)) = true ∧
          sec ≠ SourceSection.VERSUS_BALANCE ∧ sec ≠ SourceSection.GENERAL) ∨
       sec = SourceSection.BUG_FIXES ∨ sec = SourceSection.COOP) := by
  rw [extract_loop]
  rw [if_neg (by decide : ¬("change" : String) = "section")]
  rw [if_neg (by decide : ¬("change" : String) = "race")]
  rw [if_neg (by decide : ¬("change" : String) = "entity")]
  rw [if_pos (rfl : ("change" : String) = "change")]
  simp only
  split
  · rename_i hui
    simp_all [extract_loop]
  · split
    · rename_i hui hbf
      simp_all [extract_loop]
    · split
      · rename_i hui hbf hneu
        cases sec <;> simp_all [extract_loop]
      · split
        · rename_i hui hbf hneu hsec
          cases sec <;> simp_all [extract_loop]
        · rename_i hui hbf hneu hsec
          cases sec <;> simp_all [extract_loop]

/-- With a race context set, the change branch never strips prefixes and no
loop variable resets occur that affect the items: extraction returns the item
list unchanged. -/
theorem extract_loop_pure_with_race (db : UnitsDb) :
    (items : List NormalizedItem) → (r : Race) → (sec : SourceSection) →
    (ent : Option PyStr) → (extract_loop db items (some r) sec ent).2 = items
  | [], _, _, _ => by simp [extract_loop]
  | .mk ty tx cs :: rest, r, sec, ent => by
    rw [extract_loop]
    split
    · -- section
      have h1 := extract_loop_pure_with_race db cs r (detect_section_type tx) ent
      have h2 := extract_loop_pure_with_race db rest r sec ent
      simp [h1, h2]
    · split
      · -- race
        cases hr : race_map_get tx with
        | none =>
          have h2 := extract_loop_pure_with_race db rest r sec ent
          simp [Option.elim, h2]
        | some r2 =>
          have h1 := extract_loop_pure_with_race db cs r2
            (if sec = .UNKNOWN then .VERSUS_BALANCE else sec) none
          have h2 := extract_loop_pure_with_race db rest r
            (if sec = .UNKNOWN then .VERSUS_BALANCE else sec) ent
          simp [Option.elim, h1, h2]
      · split
        · -- entity
          have h1 := extract_loop_pure_with_race db cs r sec
            (some (detect_entity_from_text tx r db))
          have h2 := extract_loop_pure_with_race db rest r sec ent
          simp [Option.elim, h1, h2]
        · split
          · -- change: with a race context the text is untouched
            have h2 := extract_loop_pure_with_race db rest r sec ent
            simp only [change_ctx, Option.elim]
            split
            · simp [h2]
            · split
              · simp [h2]
              · split
                · simp [h2]
                · split
                  · simp [h2]
                  · simp [h2]
          · have h2 := extract_loop_pure_with_race db rest r sec ent
            simp [h2]
  termination_by items => sizeOf items

/-- C8 amended: extraction is a deterministic function of (tree, catalog,
context); when a race context is already set, the tree comes back unchanged
and re-extracting the returned tree reproduces the same result.  (Without a
race context, race-prefixed change leaves are mutated in place, so a second
call can observe a different tree — see the counterexample.) -/
theorem C8_extract_pure_with_race (db : UnitsDb) (items : List NormalizedItem)
    (r : Race) (sec : SourceSection) (ent : Option PyStr) :
    (extract_loop db items (some r) sec ent).2 = items ∧
    extract_loop db (extract_loop db items (some r) sec ent).2 (some r) sec ent
      = extract_loop db items (some r) sec ent := by
  refine ⟨extract_loop_pure_with_race db items r sec ent, ?_⟩
  rw [extract_loop_pure_with_race db items r sec ent]

set_option maxRecDepth 10000 in
unseal extract_loop in
/-- Counterexample to C8 as stated: extracting `[change "TerranFoo"]` with no
race context strips the race prefix in place (the tree comes back with text
"Foo"), and a second call on the returned tree yields a different output list
(the first call emits one change, the second none). -/
theorem C8_counterexample :
    ((extract_loop [] [NormalizedItem.mk "change" (str "TerranFoo") []] none
        SourceSection.UNKNOWN none).2.map NormalizedItem.ntext
      ≠ [NormalizedItem.mk "change" (str "TerranFoo") []].map NormalizedItem.ntext) ∧
    (extract_loop []
        (extract_loop [] [NormalizedItem.mk "change" (str "TerranFoo") []] none
          SourceSection.UNKNOWN none).2 none SourceSection.UNKNOWN none).1
      ≠ (extract_loop [] [NormalizedItem.mk "change" (str "TerranFoo") []] none
          SourceSection.UNKNOWN none).1 :=
  ⟨by decide, by decide⟩

set_option maxRecDepth 10000 in
set_option maxHeartbeats 2000000 in
unseal extract_loop in
/-- Counterexample to C9 as stated: with the race-prefixed leaf "TerranFoo"
present, the sibling leaf "Bar" is processed under the persisted Terran race
context (and emitted); with the prefixed leaf absent, "Bar" defaults to
Neutral and is dropped — so the output differs from processing the siblings
independently. -/
theorem C9_counterexample :
    (extract_loop [] [NormalizedItem.mk "change" (str "TerranFoo") [],
        NormalizedItem.mk "change" (str "Bar") []] none SourceSection.UNKNOWN none).1
      ≠ (extract_loop [] [NormalizedItem.mk "change" (str "TerranFoo") []] none
           SourceSection.UNKNOWN none).1
        ++ (extract_loop [] [NormalizedItem.mk "change" (str "Bar") []] none
           SourceSection.UNKNOWN none).1 := by
  simp only [extract_loop]
  decide

/-- C9 amended: when a change leaf's text begins with a race name and no race
context is set, the stripped race is used for that change and then persists as
the race context for the remaining sibling items (rather than being restored). -/
theorem C9_race_prefix_persists (db : UnitsDb) (t : PyStr)
    (rest : List NormalizedItem) (sec : SourceSection) (ent : Option PyStr)
    (r0 : Race) (s0 : PyStr) (hpre : race_prefix_strip t = some (r0, s0)) :
    extract_loop db (NormalizedItem.mk "change" t [] :: rest) none sec ent
      = ((extract_loop db [NormalizedItem.mk "change" t []] none sec ent).1
           ++ (extract_loop db rest (some r0) sec ent).1,
         (extract_loop db [NormalizedItem.mk "change" t []] none sec ent).2
           ++ (extract_loop db rest (some r0) sec ent).2) := by
  have hctx : change_ctx none t = (r0, s0) := by simp [change_ctx, hpre]
  simp only [extract_loop, hctx]
  repeat (split <;> simp_all)

/-- Witness for the amended C9 at a concrete prefixed leaf and sibling. -/
theorem C9_race_prefix_persists_witness :
    extract_loop [] (NormalizedItem.mk "change" (str "TerranFoo") []
        :: [NormalizedItem.mk "change" (str "Bar") []]) none SourceSection.UNKNOWN none
      = ((extract_loop [] [NormalizedItem.mk "change" (str "TerranFoo") []] none
            SourceSection.UNKNOWN none).1
           ++ (extract_loop [] [NormalizedItem.mk "change" (str "Bar") []]
            (some Race.TERRAN) SourceSection.UNKNOWN none).1,
         (extract_loop [] [NormalizedItem.mk "change" (str "TerranFoo") []] none
            SourceSection.UNKNOWN none).2
           ++ (extract_loop [] [NormalizedItem.mk "change" (str "Bar") []]
            (some Race.TERRAN) SourceSection.UNKNOWN none).2) :=
  C9_race_prefix_persists [] (str "TerranFoo")
    [NormalizedItem.mk "change" (str "Bar") []] SourceSection.UNKNOWN none
    Race.TERRAN (str "Foo") (by decide)

/-- Arena invariant, part 1: every node of type "change" is childless. -/
abbrev storeOk (store : List NNode) : Prop :=
  ∀ (i : Nat) (n : NNode), store[i]? = some n → n.ntype = "change" → n.nchildren = []

/-- A parent pointer (when present) refers to an existing non-change node. -/
def ptrOk (store : List NNode) : Option Nat → Prop
  | some i => ∃ n, store[i]? = some n ∧ n.ntype ≠ "change"
  | none => True

/-- The builder-state invariant: childless change nodes, and the three
`current_*` references never alias a change node. -/
def NormInv (st : NormState) : Prop :=
  storeOk st.store ∧ ptrOk st.store st.curSection ∧
  ptrOk st.store st.curRace ∧ ptrOk st.store st.curEntity

/-- `s'` retains every node of `s`, at the same index and with the same type. -/
abbrev typesExtend (s s' : List NNode) : Prop :=
  ∀ (j : Nat) (n : NNode), s[j]? = some n → ∃ n', s'[j]? = some n' ∧ n'.ntype = n.ntype

theorem typesExtend_refl (s : List NNode) : typesExtend s s :=
  fun _ n h => ⟨n, h, rfl⟩

theorem typesExtend_trans {s₁ s₂ s₃ : List NNode}
    (h₁ : typesExtend s₁ s₂) (h₂ : typesExtend s₂ s₃) : typesExtend s₁ s₃ := by
  intro j n h
  obtain ⟨n', h', hty'⟩ := h₁ j n h
  obtain ⟨n'', h'', hty''⟩ := h₂ j n' h'
  exact ⟨n'', h'', by rw [hty'', hty']⟩

theorem ptrOk_mono {s s' : List NNode} (h : typesExtend s s') :
    ∀ {o : Option Nat}, ptrOk s o → ptrOk s' o := by
  intro o ho
  cases o with
  | none => trivial
  | some i =>
    obtain ⟨n, hn, hty⟩ := ho
    obtain ⟨n', hn', hty'⟩ := h i n hn
    exact ⟨n', hn', by rw [hty']; exact hty⟩

theorem getElem?_some_lt {s : List NNode} {j : Nat} {n : NNode}
    (h : s[j]? = some n) : j < s.length := by
  by_contra hc
  rw [List.getElem?_eq_none (by omega)] at h
  exact Option.noConfusion h

theorem typesExtend_append (s : List NNode) (x : NNode) :
    typesExtend s (s ++ [x]) := by
  intro j n h
  have hj := getElem?_some_lt h
  exact ⟨n, by rw [List.getElem?_append]; simp [hj, h], rfl⟩

theorem storeOk_append (s : List NNode) (ty : String) (tx : PyStr)
    (h : storeOk s) : storeOk (s ++ [⟨ty, tx, []⟩]) := by
  intro i n hi hc
  rw [List.getElem?_append] at hi
  split at hi
  · exact h i n hi hc
  · cases h2 : i - s.length with
    | zero =>
      rw [h2] at hi
      simp at hi
      rw [← hi]
    | succ k =>
      rw [h2] at hi
      simp at hi

/-- The new-node cell of an append. -/
theorem getElem?_append_self (s : List NNode) (x : NNode) :
    (s ++ [x])[s.length]? = some x := by
  rw [List.getElem?_append]
  simp

theorem appendChildId_store_cases (st : NormState) (pid cid : Nat) :
    (appendChildId st pid cid).store = st.store ∨
    ∃ m, st.store[pid]? = some m ∧
      (appendChildId st pid cid).store
        = st.store.set pid ⟨m.ntype, m.ntext, m.nchildren ++ [cid]⟩ := by
  unfold appendChildId
  cases h : st.store[pid]? with
  | none => left; simp
  | some m => right; exact ⟨m, rfl, by simp⟩

theorem typesExtend_set (s : List NNode) (pid : Nat) (m : NNode)
    (hm : s[pid]? = some m) (ch : List Nat) :
    typesExtend s (s.set pid ⟨m.ntype, m.ntext, ch⟩) := by
  intro j n h
  by_cases hj : pid = j
  · subst hj
    have hl := getElem?_some_lt h
    refine ⟨⟨m.ntype, m.ntext, ch⟩, ?_, ?_⟩
    · rw [List.getElem?_set]
      simp [hl]
    · rw [hm] at h
      cases h
      rfl
  · exact ⟨n, by rw [List.getElem?_set]; simp [hj, h], rfl⟩

theorem appendChildId_typesExtend (st : NormState) (pid cid : Nat) :
    typesExtend st.store (appendChildId st pid cid).store := by
  rcases appendChildId_store_cases st pid cid with h | ⟨m, hm, h⟩
  · rw [h]; exact typesExtend_refl _
  · rw [h]; exact typesExtend_set _ _ _ hm _

theorem appendChildId_storeOk (st : NormState) (pid cid : Nat)
    (hs : storeOk st.store) (hp : ptrOk st.store (some pid)) :
    storeOk (appendChildId st pid cid).store := by
  rcases appendChildId_store_cases st pid cid with h | ⟨m, hm, h⟩
  · rw [h]; exact hs
  · rw [h]
    intro i n hi hc
    rw [List.getElem?_set] at hi
    split at hi
    · split at hi
      · cases hi
        obtain ⟨m', hm', hty⟩ := hp
        rw [hm] at hm'
        cases hm'
        exact absurd hc hty
      · exact Option.noConfusion hi
    · exact hs i n hi hc

theorem appendChildId_fields (st : NormState) (pid cid : Nat) :
    (appendChildId st pid cid).roots = st.roots ∧
    (appendChildId st pid cid).curSection = st.curSection ∧
    (appendChildId st pid cid).curRace = st.curRace ∧
    (appendChildId st pid cid).curEntity = st.curEntity := by
  unfold appendChildId
  cases st.store[pid]? <;> simp

theorem attach_typesExtend (st : NormState) (parent : Option Nat) (cid : Nat) :
    typesExtend st.store (attach st parent cid).store := by
  cases parent with
  | none => exact typesExtend_refl _
  | some pid => exact appendChildId_typesExtend st pid cid

theorem attach_storeOk (st : NormState) (parent : Option Nat) (cid : Nat)
    (hs : storeOk st.store) (hp : ptrOk st.store parent) :
    storeOk (attach st parent cid).store := by
  cases parent with
  | none => exact hs
  | some pid => exact appendChildId_storeOk st pid cid hs hp

theorem attach_fields (st : NormState) (parent : Option Nat) (cid : Nat) :
    (attach st parent cid).curSection = st.curSection ∧
    (attach st parent cid).curRace = st.curRace ∧
    (attach st parent cid).curEntity = st.curEntity := by
  cases parent with
  | none => simp [attach]
  | some pid => exact (appendChildId_fields st pid cid).2

theorem pushUnder_typesExtend (st : NormState) (parent : Option Nat)
    (ty : String) (tx : PyStr) :
    typesExtend st.store (pushUnder st parent ty tx).2.store :=
  typesExtend_trans (typesExtend_append st.store ⟨ty, tx, []⟩)
    (attach_typesExtend
      ⟨st.store ++ [⟨ty, tx, []⟩], st.roots, st.curSection, st.curRace, st.curEntity⟩
      parent st.store.length)

theorem pushUnder_storeOk (st : NormState) (parent : Option Nat)
    (ty : String) (tx : PyStr) (hs : storeOk st.store) (hp : ptrOk st.store parent) :
    storeOk (pushUnder st parent ty tx).2.store := by
  show storeOk (attach
    ⟨st.store ++ [⟨ty, tx, []⟩], st.roots, st.curSection, st.curRace, st.curEntity⟩
    parent st.store.length).store
  exact attach_storeOk _ parent _ (storeOk_append _ _ _ hs)
    (ptrOk_mono (typesExtend_append st.store ⟨ty, tx, []⟩) hp)

theorem pushUnder_fields (st : NormState) (parent : Option Nat)
    (ty : String) (tx : PyStr) :
    (pushUnder st parent ty tx).2.curSection = st.curSection ∧
    (pushUnder st parent ty tx).2.curRace = st.curRace ∧
    (pushUnder st parent ty tx).2.curEntity = st.curEntity := by
  show (attach
      ⟨st.store ++ [⟨ty, tx, []⟩], st.roots, st.curSection, st.curRace, st.curEntity⟩
      parent st.store.length).curSection = st.curSection ∧ _ ∧ _
  exact attach_fields _ parent _

theorem pushUnder_newType (st : NormState) (parent : Option Nat)
    (ty : String) (tx : PyStr) (hp : ptrOk st.store parent) :
    ∃ n, (pushUnder st parent ty tx).2.store[(pushUnder st parent ty tx).1]? = some n ∧
      n.ntype = ty := by
  have hbase : (st.store ++ [⟨ty, tx, []⟩])[st.store.length]? = some ⟨ty, tx, []⟩ :=
    getElem?_append_self st.store _
  show ∃ n,
    (attach ⟨st.store ++ [⟨ty, tx, []⟩], st.roots, st.curSection, st.curRace,
      st.curEntity⟩ parent st.store.length).store[st.store.length]? = some n ∧ n.ntype = ty
  cases parent with
  | none => exact ⟨⟨ty, tx, []⟩, hbase, rfl⟩
  | some pid =>
    obtain ⟨m0, hm0, _⟩ := hp
    have hpidlt := getElem?_some_lt hm0
    rcases appendChildId_store_cases
        ⟨st.store ++ [⟨ty, tx, []⟩], st.roots, st.curSection, st.curRace, st.curEntity⟩
        pid st.store.length with h | ⟨m, hm, h⟩
    · exact ⟨⟨ty, tx, []⟩, by rw [show (attach _ (some pid) _).store = _ from h]; exact hbase, rfl⟩
    · refine ⟨⟨ty, tx, []⟩, ?_, rfl⟩
      rw [show (attach _ (some pid) _).store = _ from h]
      rw [List.getElem?_set]
      have : pid ≠ st.store.length := by omega
      simp [this, hbase]

/-- New non-change node ids make valid parent pointers. -/
theorem pushUnder_newPtr (st : NormState) (parent : Option Nat)
    (ty : String) (tx : PyStr) (hp : ptrOk st.store parent) (hty : ty ≠ "change") :
    ptrOk (pushUnder st parent ty tx).2.store (some (pushUnder st parent ty tx).1) := by
  obtain ⟨n, hn, hnty⟩ := pushUnder_newType st parent ty tx hp
  exact ⟨n, hn, by rw [hnty]; exact hty⟩

/-- What the inner builder loops preserve: types of existing nodes, and the
three `current_*` references. -/
def builderOk (st st' : NormState) : Prop :=
  typesExtend st.store st'.store ∧ st'.curSection = st.curSection ∧
  st'.curRace = st.curRace ∧ st'.curEntity = st.curEntity

theorem builderOk_refl (st : NormState) : builderOk st st :=
  ⟨typesExtend_refl _, rfl, rfl, rfl⟩

theorem builderOk_trans {s₁ s₂ s₃ : NormState}
    (h₁ : builderOk s₁ s₂) (h₂ : builderOk s₂ s₃) : builderOk s₁ s₃ :=
  ⟨typesExtend_trans h₁.1 h₂.1, by rw [h₂.2.1, h₁.2.1], by rw [h₂.2.2.1, h₁.2.2.1],
   by rw [h₂.2.2.2, h₁.2.2.2]⟩

theorem pushUnder_builderOk (st : NormState) (parent : Option Nat)
    (ty : String) (tx : PyStr) : builderOk st (pushUnder st parent ty tx).2 :=
  ⟨pushUnder_typesExtend st parent ty tx, (pushUnder_fields st parent ty tx).1,
   (pushUnder_fields st parent ty tx).2.1, (pushUnder_fields st parent ty tx).2.2⟩

theorem addChangeStep_ok (pid : Nat) (s : NormState) (li : Html)
    (hs : storeOk s.store) (hp : ptrOk s.store (some pid)) :
    storeOk (addChangeStep pid s li).store ∧ builderOk s (addChangeStep pid s li) := by
  unfold addChangeStep
  simp only
  split
  · exact ⟨hs, builderOk_refl s⟩
  · exact ⟨pushUnder_storeOk s (some pid) "change" li.getText hs hp,
      pushUnder_builderOk s (some pid) "change" li.getText⟩

theorem addChangeStep_foldl (pid : Nat) :
    ∀ (lis : List Html) (s : NormState), storeOk s.store → ptrOk s.store (some pid) →
      storeOk (lis.foldl (addChangeStep pid) s).store ∧
      builderOk s (lis.foldl (addChangeStep pid) s)
  | [], s, hs, _ => ⟨hs, builderOk_refl s⟩
  | li :: rest, s, hs, hp => by
    obtain ⟨hs1, hb1⟩ := addChangeStep_ok pid s li hs hp
    obtain ⟨hs2, hb2⟩ := addChangeStep_foldl pid rest (addChangeStep pid s li) hs1
      (ptrOk_mono hb1.1 hp)
    exact ⟨hs2, builderOk_trans hb1 hb2⟩

theorem addChanges_ok (st : NormState) (pid : Nat) (ul2 : Html)
    (hs : storeOk st.store) (hp : ptrOk st.store (some pid)) :
    storeOk (addChanges st pid ul2).store ∧ builderOk st (addChanges st pid ul2) :=
  addChangeStep_foldl pid (directNamed "li" ul2) st hs hp

theorem addEntityStep_ok (rid : Nat) (s : NormState) (li : Html)
    (hs : storeOk s.store) (hp : ptrOk s.store (some rid)) :
    storeOk (addEntityStep rid s li).store ∧ builderOk s (addEntityStep rid s li) := by
  unfold addEntityStep
  cases hstg : findDesc (isNamed "strong") li with
  | none =>
    cases hul : findDesc (isNamed "ul") li <;> exact ⟨hs, builderOk_refl s⟩
  | some stg =>
    cases hul : findDesc (isNamed "ul") li with
    | none => exact ⟨hs, builderOk_refl s⟩
    | some ul2 =>
      have hs1 := pushUnder_storeOk s (some rid) "entity" stg.getText hs hp
      have hb1 := pushUnder_builderOk s (some rid) "entity" stg.getText
      have hptr := pushUnder_newPtr s (some rid) "entity" stg.getText hp (by decide)
      obtain ⟨hs2, hb2⟩ := addChanges_ok _ _ ul2 hs1 hptr
      exact ⟨hs2, builderOk_trans hb1 hb2⟩

theorem addEntityStep_foldl (rid : Nat) :
    ∀ (lis : List Html) (s : NormState), storeOk s.store → ptrOk s.store (some rid) →
      storeOk (lis.foldl (addEntityStep rid) s).store ∧
      builderOk s (lis.foldl (addEntityStep rid) s)
  | [], s, hs, _ => ⟨hs, builderOk_refl s⟩
  | li :: rest, s, hs, hp => by
    obtain ⟨hs1, hb1⟩ := addEntityStep_ok rid s li hs hp
    obtain ⟨hs2, hb2⟩ := addEntityStep_foldl rid rest (addEntityStep rid s li) hs1
      (ptrOk_mono hb1.1 hp)
    exact ⟨hs2, builderOk_trans hb1 hb2⟩

theorem addEntitiesWithChanges_ok (st : NormState) (rid : Nat) (nestedUl : Html)
    (hs : storeOk st.store) (hp : ptrOk st.store (some rid)) :
    storeOk (addEntitiesWithChanges st rid nestedUl).store ∧
    builderOk st (addEntitiesWithChanges st rid nestedUl) :=
  addEntityStep_foldl rid (directNamed "li" nestedUl) st hs hp

theorem addRaceStep_ok (sid : Nat) (s : NormState) (li : Html)
    (hs : storeOk s.store) (hp : ptrOk s.store (some sid)) :
    storeOk (addRaceStep sid s li).store ∧ builderOk s (addRaceStep sid s li) := by
  unfold addRaceStep
  cases hstg : findDesc (isNamed "strong") li with
  | none =>
    cases hul : findDesc (isNamed "ul") li <;> exact ⟨hs, builderOk_refl s⟩
  | some stg =>
    cases hul : findDesc (isNamed "ul") li with
    | none => exact ⟨hs, builderOk_refl s⟩
    | some nnu =>
      simp only
      split
      · have hs1 := pushUnder_storeOk s (some sid) "race" stg.getText hs hp
        have hb1 := pushUnder_builderOk s (some sid) "race" stg.getText
        have hptr := pushUnder_newPtr s (some sid) "race" stg.getText hp (by decide)
        obtain ⟨hs2, hb2⟩ := addEntitiesWithChanges_ok _ _ nnu hs1 hptr
        exact ⟨hs2, builderOk_trans hb1 hb2⟩
      · exact ⟨hs, builderOk_refl s⟩

theorem addRaceStep_foldl (sid : Nat) :
    ∀ (lis : List Html) (s : NormState), storeOk s.store → ptrOk s.store (some sid) →
      storeOk (lis.foldl (addRaceStep sid) s).store ∧
      builderOk s (lis.foldl (addRaceStep sid) s)
  | [], s, hs, _ => ⟨hs, builderOk_refl s⟩
  | li :: rest, s, hs, hp => by
    obtain ⟨hs1, hb1⟩ := addRaceStep_ok sid s li hs hp
    obtain ⟨hs2, hb2⟩ := addRaceStep_foldl sid rest (addRaceStep sid s li) hs1
      (ptrOk_mono hb1.1 hp)
    exact ⟨hs2, builderOk_trans hb1 hb2⟩

theorem addRacesUnder_ok (st : NormState) (sid : Nat) (nestedUl : Html)
    (hs : storeOk st.store) (hp : ptrOk st.store (some sid)) :
    storeOk (addRacesUnder st sid nestedUl).store ∧
    builderOk st (addRacesUnder st sid nestedUl) :=
  addRaceStep_foldl sid (directNamed "li" nestedUl) st hs hp

/-- The race-or-section parent choice is a valid parent under the invariant. -/
theorem raceOrSection_ok {st : NormState} (h : NormInv st) :
    ptrOk st.store (raceOrSection st) := by
  unfold raceOrSection
  cases hr : st.curRace with
  | some i =>
    show ptrOk st.store (some i)
    rw [← hr]
    exact h.2.2.1
  | none => exact h.2.1

/-- The entity-race-section parent choice is a valid parent. -/
theorem entityRaceSection_ok {st : NormState} (h : NormInv st) :
    ptrOk st.store (entityRaceSection st) := by
  unfold entityRaceSection
  cases he : st.curEntity with
  | some i =>
    show ptrOk st.store (some i)
    rw [← he]
    exact h.2.2.2
  | none => exact raceOrSection_ok h

theorem NormInv_of_builderOk {st st' : NormState} (h : NormInv st)
    (hs : storeOk st'.store) (hb : builderOk st st') : NormInv st' := by
  refine ⟨hs, ?_, ?_, ?_⟩
  · rw [hb.2.1]; exact ptrOk_mono hb.1 h.2.1
  · rw [hb.2.2.1]; exact ptrOk_mono hb.1 h.2.2.1
  · rw [hb.2.2.2]; exact ptrOk_mono hb.1 h.2.2.2

theorem NormInv_update_race {st st' : NormState} (h : NormInv st)
    (hs : storeOk st'.store) (hb : builderOk st st') (rid : Nat)
    (hptr : ptrOk st'.store (some rid)) :
    NormInv { st' with curRace := some rid, curEntity := none } := by
  refine ⟨hs, ?_, hptr, trivial⟩
  show ptrOk st'.store st'.curSection
  rw [hb.2.1]
  exact ptrOk_mono hb.1 h.2.1

theorem NormInv_update_section {st' : NormState}
    (hs : storeOk st'.store) (sid : Nat) (hptr : ptrOk st'.store (some sid)) :
    NormInv { st' with curSection := some sid, curRace := none, curEntity := none } :=
  ⟨hs, hptr, trivial, trivial⟩

theorem NormInv_update_entity {st st' : NormState} (h : NormInv st)
    (hs : storeOk st'.store) (hb : builderOk st st') (eid : Nat)
    (hptr : ptrOk st'.store (some eid)) :
    NormInv { st' with curEntity := some eid } := by
  refine ⟨hs, ?_, ?_, hptr⟩
  · show ptrOk st'.store st'.curSection
    rw [hb.2.1]
    exact ptrOk_mono hb.1 h.2.1
  · show ptrOk st'.store st'.curRace
    rw [hb.2.2.1]
    exact ptrOk_mono hb.1 h.2.2.1

/-- The per-`<li>` step of the `<ul>` branch preserves the invariant. -/
theorem processLi_inv (st : NormState) (li : Html) (h : NormInv st) :
    NormInv (processLi st li) := by
  unfold processLi
  simp only
  split
  · exact h
  · cases hstg : findDesc (isNamed "strong") li with
    | some stg =>
      cases hul : findDesc (isNamed "ul") li with
      | some nestedUl =>
        simp only
        split
        · -- sub-section branch
          have hs1 := pushUnder_storeOk st st.curSection "section" stg.getText h.1 h.2.1
          have hb1 := pushUnder_builderOk st st.curSection "section" stg.getText
          have hptr := pushUnder_newPtr st st.curSection "section" stg.getText h.2.1
            (by decide)
          obtain ⟨hs2, hb2⟩ := addRacesUnder_ok _ _ nestedUl hs1 hptr
          exact NormInv_of_builderOk h hs2 (builderOk_trans hb1 hb2)
        · split
          · -- race branch
            have hs1 := pushUnder_storeOk st st.curSection "race" stg.getText h.1 h.2.1
            have hb1 := pushUnder_builderOk st st.curSection "race" stg.getText
            have hptr := pushUnder_newPtr st st.curSection "race" stg.getText h.2.1
              (by decide)
            obtain ⟨hs2, hb2⟩ := addEntitiesWithChanges_ok _ _ nestedUl hs1 hptr
            exact NormInv_update_race h hs2 (builderOk_trans hb1 hb2) _
              (ptrOk_mono hb2.1 hptr)
          · -- entity branch
            have hp := raceOrSection_ok h
            have hs1 := pushUnder_storeOk st (raceOrSection st) "entity" stg.getText h.1 hp
            have hb1 := pushUnder_builderOk st (raceOrSection st) "entity" stg.getText
            have hptr := pushUnder_newPtr st (raceOrSection st) "entity" stg.getText hp
              (by decide)
            obtain ⟨hs2, hb2⟩ := addChanges_ok _ _ nestedUl hs1 hptr
            exact NormInv_of_builderOk h hs2 (builderOk_trans hb1 hb2)
      | none =>
        -- strong without nested ul: plain change leaf
        have hp := entityRaceSection_ok h
        exact NormInv_of_builderOk h
          (pushUnder_storeOk st (entityRaceSection st) "change" li.getText h.1 hp)
          (pushUnder_builderOk st (entityRaceSection st) "change" li.getText)
    | none =>
      cases hul : findDesc (isNamed "ul") li with
      | some nestedUl =>
        cases hft : firstDirectText li.childrenL with
        | some et0 =>
          simp only
          split
          · exact h
          · have hp := raceOrSection_ok h
            have hs1 := pushUnder_storeOk st (raceOrSection st) "entity" (stripS et0) h.1 hp
            have hb1 := pushUnder_builderOk st (raceOrSection st) "entity" (stripS et0)
            have hptr := pushUnder_newPtr st (raceOrSection st) "entity" (stripS et0) hp
              (by decide)
            obtain ⟨hs2, hb2⟩ := addChanges_ok _ _ nestedUl hs1 hptr
            exact NormInv_of_builderOk h hs2 (builderOk_trans hb1 hb2)
        | none => exact h
      | none =>
        have hp := entityRaceSection_ok h
        exact NormInv_of_builderOk h
          (pushUnder_storeOk st (entityRaceSection st) "change" li.getText h.1 hp)
          (pushUnder_builderOk st (entityRaceSection st) "change" li.getText)

theorem processLi_foldl_inv :
    ∀ (lis : List Html) (st : NormState), NormInv st →
      NormInv (lis.foldl processLi st)
  | [], _, h => h
  | li :: rest, st, h =>
    processLi_foldl_inv rest (processLi st li) (processLi_inv st li h)

/-- The per-element step of the normalizer preserves the invariant. -/
theorem processElement_inv (st : NormState) (e : Html) (h : NormInv st) :
    NormInv (processElement st e) := by
  unfold processElement
  cases e with
  | txt s => exact h
  | tag name cls cs =>
    simp only
    split
    · -- h2
      split
      · exact NormInv_update_race h
          (pushUnder_storeOk st none "race" _ h.1 trivial)
          (pushUnder_builderOk st none "race" _) _
          (pushUnder_newPtr st none "race" _ trivial (by decide))
      · exact NormInv_update_section
          (pushUnder_storeOk st none "section" _ h.1 trivial) _
          (pushUnder_newPtr st none "section" _ trivial (by decide))
    · split
      · -- h3
        split
        · exact NormInv_update_race h
            (pushUnder_storeOk st st.curSection "race" _ h.1 h.2.1)
            (pushUnder_builderOk st st.curSection "race" _) _
            (pushUnder_newPtr st st.curSection "race" _ h.2.1 (by decide))
        · split
          · exact NormInv_update_section
              (pushUnder_storeOk st none "section" _ h.1 trivial) _
              (pushUnder_newPtr st none "section" _ trivial (by decide))
          · exact NormInv_update_entity h
              (pushUnder_storeOk st (raceOrSection st) "entity" _ h.1 (raceOrSection_ok h))
              (pushUnder_builderOk st (raceOrSection st) "entity" _) _
              (pushUnder_newPtr st (raceOrSection st) "entity" _ (raceOrSection_ok h)
                (by decide))
      · split
        · -- h4
          exact NormInv_update_entity h
            (pushUnder_storeOk st (raceOrSection st) "entity" _ h.1 (raceOrSection_ok h))
            (pushUnder_builderOk st (raceOrSection st) "entity" _) _
            (pushUnder_newPtr st (raceOrSection st) "entity" _ (raceOrSection_ok h)
              (by decide))
        · split
          · -- p
            split
            · split
              · split
                · exact NormInv_update_race h
                    (pushUnder_storeOk st st.curSection "race" _ h.1 h.2.1)
                    (pushUnder_builderOk st st.curSection "race" _) _
                    (pushUnder_newPtr st st.curSection "race" _ h.2.1 (by decide))
                · exact NormInv_update_entity h
                    (pushUnder_storeOk st (raceOrSection st) "entity" _ h.1
                      (raceOrSection_ok h))
                    (pushUnder_builderOk st (raceOrSection st) "entity" _) _
                    (pushUnder_newPtr st (raceOrSection st) "entity" _
                      (raceOrSection_ok h) (by decide))
              · exact h
            · exact h
          · split
            · -- ul
              exact processLi_foldl_inv _ st h
            · exact h

theorem processElement_foldl_inv :
    ∀ (es : List Html) (st : NormState), NormInv st →
      NormInv (es.foldl processElement st)
  | [], _, h => h
  | e :: rest, st, h =>
    processElement_foldl_inv rest (processElement st e) (processElement_inv st e h)

theorem initNormState_inv : NormInv initNormState :=
  ⟨fun _ _ h => Option.noConfusion h, trivial, trivial, trivial⟩

/-- Decidable check of the tree-leaf invariant: every node of kind "change"
in the forest has no children. -/
def changeLeavesL : List NormalizedItem → Bool
  | [] => true
  | .mk ty _ cs :: rest =>
    (!(ty == "change") || cs.isEmpty) && (changeLeavesL cs && changeLeavesL rest)
  termination_by l => sizeOf l

theorem changeLeavesL_cons (x : NormalizedItem) (l : List NormalizedItem) :
    changeLeavesL (x :: l) = (changeLeavesL [x] && changeLeavesL l) := by
  cases x with
  | mk ty tx cs => simp [changeLeavesL, Bool.and_assoc]

theorem changeLeavesL_map (f : Nat → NormalizedItem)
    (h : ∀ j : Nat, changeLeavesL [f j] = true) :
    ∀ l : List Nat, changeLeavesL (l.map f) = true
  | [] => by simp [changeLeavesL]
  | j :: rest => by
    rw [List.map_cons, changeLeavesL_cons, h j, changeLeavesL_map f h rest]
    rfl

/-- Reconstructed trees from a well-formed arena satisfy the leaf check. -/
theorem denote_changeLeaves (store : List NNode) (h : storeOk store) :
    ∀ (fuel i : Nat), changeLeavesL [denote store fuel i] = true := by
  intro fuel
  induction fuel with
  | zero => intro i; simp [denote, changeLeavesL]
  | succ fuel ih =>
    intro i
    cases hn : store[i]? with
    | none => simp [denote, hn, changeLeavesL]
    | some n =>
      simp only [denote, hn]
      have hcs := changeLeavesL_map (fun j => denote store fuel j) ih n.nchildren
      by_cases hty : n.ntype = "change"
      · have hch := h i n hn hty
        rw [hch]
        simp [changeLeavesL, hty]
      · simp [changeLeavesL, hty, hcs]

/-- C4: for every input document, every node of kind Change in the tree
produced by `normalize_html_to_tree` has an empty children list. -/
theorem C4_change_nodes_are_leaves (soup : Html) :
    changeLeavesL (normalize_html_to_tree soup) = true := by
  unfold normalize_html_to_tree
  cases hb : findDesc isBlogSection soup with
  | none => simp [changeLeavesL]
  | some blog =>
    simp only
    have hInv : NormInv (blog.childrenL.foldl processElement initNormState) :=
      processElement_foldl_inv blog.childrenL initNormState initNormState_inv
    exact changeLeavesL_map _ (denote_changeLeaves _ hInv.1 _) _

/-- One descendant-removal pass (`for element in …find_all(…): element.decompose()`). -/
def removeDescL (p : Html → Bool) : List Html → List Html
  | [] => []
  | c :: rest =>
    if p c then removeDescL p rest
    else
      match c with
      | .txt s => .txt s :: removeDescL p rest
      | .tag n cl cs => .tag n cl (removeDescL p cs) :: removeDescL p rest
  termination_by l => sizeOf l

/-- Matches `["script", "style", "nav"]` elements. -/
def isScriptStyleNav (h : Html) : Bool :=
  isNamed "script" h || isNamed "style" h || isNamed "nav" h

/-- Matches the Liquipedia non-content classes. -/
def isWikiChrome (h : Html) : Bool :=
  hasClass "mw-editsection" h || hasClass "navbox" h || hasClass "toc" h ||
  hasClass "noprint" h

/-- Matches `table.infobox`. -/
def isInfoboxTable (h : Html) : Bool :=
  isNamed "table" h && hasClass "infobox" h

/-- The three cleaning passes of the Liquipedia branch of `extract_body_html`. -/
def cleanWiki (w : Html) : Html :=
  match w with
  | .txt s => .txt s
  | .tag n cl cs =>
    .tag n cl (removeDescL isInfoboxTable
      (removeDescL isWikiChrome (removeDescL isScriptStyleNav cs)))

/-- `extract_body_html` from `sc2patches/core/extraction.py`: Blizzard's
`section.blog`, else Liquipedia's cleaned `div.mw-parser-output`, else the
single `ExtractionError`. -/
def extract_body_html (doc : Html) : Except PyStr Html :=
  match findDesc isBlogSection doc with
  | some b => .ok b
  | none =>
    match findDesc isMwOutput doc with
    | some w => .ok (cleanWiki w)
    | none => .error (str "No section.blog or div.mw-parser-output found in HTML")

/-- `FallbackParser.parse` from `sc2patches/parsers/fallback.py`. -/
def FallbackParser_parse (soup : Html) : List RawChange := []

/-- C2: the core errors exactly when neither supported content container is
present; the fallback parser succeeds with an empty list on every document;
and on a document with no `section.blog` the unified parser succeeds with an
empty change list rather than an error. -/
theorem C2_error_iff_no_container :
    (∀ doc : Html,
      (extract_body_html doc).isOk
        = (existsDescL isBlogSection doc.childrenL ||
           existsDescL isMwOutput doc.childrenL)) ∧
    (∀ soup : Html, FallbackParser_parse soup = []) ∧
    (∀ (db : UnitsDb) (doc : Html),
      existsDescL isBlogSection doc.childrenL = false → unified_parse db doc = []) := by
  refine ⟨fun doc => ?_, fun _ => rfl, fun db doc hno => ?_⟩
  · unfold extract_body_html findDesc
    have hblog := findDescL_isSome isBlogSection doc.childrenL
    have hmw := findDescL_isSome isMwOutput doc.childrenL
    cases hb : findDescL isBlogSection doc.childrenL with
    | some b =>
      rw [hb] at hblog
      simp at hblog
      simp [hblog, Except.isOk, Except.toBool]
    | none =>
      rw [hb] at hblog
      simp at hblog
      cases hm : findDescL isMwOutput doc.childrenL with
      | some w =>
        rw [hm] at hmw
        simp at hmw
        simp [hblog, hmw, Except.isOk, Except.toBool]
      | none =>
        rw [hm] at hmw
        simp at hmw
        simp [hblog, hmw, Except.isOk, Except.toBool]
  · unfold unified_parse normalize_html_to_tree
    have hblog := findDescL_isSome isBlogSection doc.childrenL
    rw [hno] at hblog
    cases hb : findDesc isBlogSection doc with
    | some b =>
      unfold findDesc at hb
      rw [hb] at hblog
      simp at hblog
    | none => simp [extract_loop]

set_option maxRecDepth 10000 in
unseal existsDescL in
/-- Witness for C2's third conjunct at a concrete blog-less document. -/
theorem C2_error_iff_no_container_witness :
    existsDescL isBlogSection (Html.tag "html" [] [Html.txt (str "hello")]).childrenL
      = false ∧
    unified_parse [] (Html.tag "html" [] [Html.txt (str "hello")]) = [] :=
  ⟨by decide,
   C2_error_iff_no_container.2.2 [] (Html.tag "html" [] [Html.txt (str "hello")])
     (by decide)⟩

/-- Next Tag sibling (`find_next_sibling()` skips navigable strings) is a `<ul>`. -/
def nextTagIsUl : List Html → Bool
  | [] => false
  | .txt _ :: rest => nextTagIsUl rest
  | .tag n _ _ :: _ => n = "ul"

/-- The `<p>` test of `detect_pattern`: non-empty text shorter than 30 code
points not starting with "We". -/
def isShortPText (e : Html) : Bool :=
  let t := e.getText
  !t.isEmpty && t.length < 30 && !((str "We").isPrefixOf t)

/-- Is there (anywhere below) a short `<p>` whose next Tag sibling is a `<ul>`? -/
def pUlInList : List Html → Bool
  | [] => false
  | c :: rest =>
    (isNamed "p" c && isShortPText c && nextTagIsUl rest) ||
    (match c with
     | .txt _ => false
     | .tag _ _ cs => pUlInList cs) ||
    pUlInList rest
  termination_by l => sizeOf l

/-- `<h2>`/`<h3>` whose text is exactly one of "Terran"/"Protoss"/"Zerg"
(exact case, as `detect_pattern` checks). -/
def isRaceHeaderExact (name : String) (e : Html) : Bool :=
  isNamed name e &&
  (e.getText = str "Terran" || e.getText = str "Protoss" || e.getText = str "Zerg")

/-- `detect_pattern` from `sc2patches/parsers/base.py`. -/
def detect_pattern (doc : Html) : PyStr :=
  match findDesc isBlogSection doc with
  | none => str "no_blog"
  | some blog =>
    if existsDescL (isRaceHeaderExact "h2") blog.childrenL then str "direct_h2"
    else if existsDescL (isRaceHeaderExact "h3") blog.childrenL then str "h3_race"
    else if pUlInList blog.childrenL then str "p_entity"
    else if existsDescL (isNamed "strong") blog.childrenL then str "nested_strong"
    else str "unknown"

/-- C10: `detect_pattern` is total over the six-tag vocabulary, and yields
"no_blog" exactly when the blog content container is absent. -/
theorem C10_detect_pattern_total (doc : Html) :
    (detect_pattern doc = str "no_blog" ∨ detect_pattern doc = str "direct_h2" ∨
     detect_pattern doc = str "h3_race" ∨ detect_pattern doc = str "p_entity" ∨
     detect_pattern doc = str "nested_strong" ∨ detect_pattern doc = str "unknown") ∧
    (detect_pattern doc = str "no_blog" ↔
      existsDescL isBlogSection doc.childrenL = false) := by
  unfold detect_pattern findDesc
  have hblog := findDescL_isSome isBlogSection doc.childrenL
  cases hb : findDescL isBlogSection doc.childrenL with
  | none =>
    rw [hb] at hblog
    simp at hblog
    simp [hblog]
  | some blog =>
    rw [hb] at hblog
    simp at hblog
    dsimp only
    constructor
    · split
      · exact Or.inr (Or.inl rfl)
      · split
        · exact Or.inr (Or.inr (Or.inl rfl))
        · split
          · exact Or.inr (Or.inr (Or.inr (Or.inl rfl)))
          · split
            · exact Or.inr (Or.inr (Or.inr (Or.inr (Or.inl rfl))))
            · exact Or.inr (Or.inr (Or.inr (Or.inr (Or.inr rfl))))
    · rw [hblog]
      constructor
      · intro h
        exfalso
        split at h
        · exact absurd h (by decide)
        · split at h
          · exact absurd h (by decide)
          · split at h
            · exact absurd h (by decide)
            · split at h
              · exact absurd h (by decide)
              · exact absurd h (by decide)
      · intro h
        simp at h

/-- `race_names` of `NestedStrongParser.parse`, in insertion order. -/
def ns_race_names : List (PyStr × Race) :=
  [(str "Zerg", .ZERG), (str "Protoss", .PROTOSS), (str "Terran", .TERRAN),
   (str "ZERG", .ZERG), (str "PROTOSS", .PROTOSS), (str "TERRAN", .TERRAN)]

/-- One nested change of `NestedStrongParser.parse`: race detection (context,
then text prefix, then strong-label lookup, then Neutral), entity resolution
with the strong-label fallback, and unconditional emission. -/
def ns_change (db : UnitsDb) (race : Option Race) (sec : SourceSection)
    (strongText changeText : PyStr) : RawChange :=
  let rc : Race × PyStr :=
    match race with
    | some r => (r, changeText)
    | none =>
      match ns_race_names.find? (fun p => p.1.isPrefixOf changeText) with
      | some p => (p.2, changeText.drop p.1.length)
      | none =>
        match db_find_entity db strongText with
        | some re => (re.1, changeText)
        | none => (Race.NEUTRAL, changeText)
  let eid := detect_entity_from_text rc.2 rc.1 db
  let eid2 :=
    if (str "-unknown").isSuffixOf eid && !(rc.1 = Race.NEUTRAL : Bool) then
      let fromStrong := detect_entity_from_text strongText rc.1 db
      if !(str "-unknown").isSuffixOf fromStrong then fromStrong else eid
    else eid
  ⟨eid2, rc.2, sec⟩

/-- The inner `for nested_li in nested_ul.find_all("li", recursive=False)`
loop: every non-empty text yields exactly one RawChange. -/
def ns_nested (db : UnitsDb) (race : Option Race) (sec : SourceSection)
    (strongText : PyStr) (nestedUl : Html) : List RawChange :=
  (directNamed "li" nestedUl).filterMap (fun nli =>
    let ct := nli.getText
    if ct = [] then none else some (ns_change db race sec strongText ct))

/-- The `<ul>` branch of `NestedStrongParser.parse`. -/
def ns_ul (db : UnitsDb) (race : Option Race) (sec : SourceSection)
    (ul : Html) : List RawChange :=
  ((directNamed "li" ul).map (fun li =>
    match findDesc (isNamed "strong") li, findDesc (isNamed "ul") li with
    | some stg, some nested => ns_nested db race sec stg.getText nested
    | _, _ => [])).flatten

/-- The element loop of `NestedStrongParser.parse` over `blog.children` with
its `current_race` / `current_section` state. -/
def nested_strong_loop (db : UnitsDb) :
    List Html → Option Race → SourceSection → List RawChange
  | [], _, _ => []
  | e :: rest, race, sec =>
    match e with
    | .txt _ => nested_strong_loop db rest race sec
    | .tag name _ _ =>
      if name = "h2" then
        let text := e.getText
        let sec' := detect_section_type text
        let race' :=
          match ns_race_names.find? (fun p => p.1 = text) with
          | some p => some p.2
          | none => race
        nested_strong_loop db rest race' sec'
      else if name = "h3" then
        let text := e.getText
        match ns_race_names.find? (fun p => p.1 = text) with
        | some p =>
          nested_strong_loop db rest (some p.2)
            (if sec = .UNKNOWN then .VERSUS_BALANCE else sec)
        | none => nested_strong_loop db rest race sec
      else if name = "ul" then
        ns_ul db race sec e ++ nested_strong_loop db rest race sec
      else nested_strong_loop db rest race sec

/-- `NestedStrongParser.parse` from `sc2patches/parsers/nested_strong.py`. -/
def nested_strong_parse (db : UnitsDb) (soup : Html) : List RawChange :=
  match findDesc isBlogSection soup with
  | none => []
  | some blog => nested_strong_loop db blog.childrenL none .UNKNOWN

/-- Specification-side count of the nested change texts `parse` visits:
non-empty texts of direct `<li>`s of the nested `<ul>` of each
`<li><strong>…</strong>` of each top-level `<ul>`. -/
def ns_count_ul (ul : Html) : Nat :=
  ((directNamed "li" ul).map (fun li =>
    match findDesc (isNamed "strong") li, findDesc (isNamed "ul") li with
    | some _, some nested =>
      ((directNamed "li" nested).filter (fun nli => !nli.getText.isEmpty)).length
    | _, _ => 0)).sum

/-- Count over the element loop (only `<ul>` elements contribute). -/
def ns_count_elems : List Html → Nat
  | [] => 0
  | e :: rest =>
    (match e with
     | .tag name _ _ => if name = "ul" then ns_count_ul e else 0
     | .txt _ => 0) + ns_count_elems rest

/-- Count over the document. -/
def ns_count (soup : Html) : Nat :=
  match findDesc isBlogSection soup with
  | none => 0
  | some blog => ns_count_elems blog.childrenL

theorem ns_nested_length (db : UnitsDb) (race : Option Race) (sec : SourceSection)
    (stx : PyStr) (nested : Html) :
    (ns_nested db race sec stx nested).length
      = ((directNamed "li" nested).filter (fun nli => !nli.getText.isEmpty)).length := by
  unfold ns_nested
  induction directNamed "li" nested with
  | nil => rfl
  | cons c l ih =>
    by_cases hc : c.getText = []
    · simp only [List.filterMap_cons, List.filter_cons, hc, if_pos]
      have : c.getText.isEmpty = true := by simp [hc]
      simp [this, ih]
    · simp only [List.filterMap_cons, List.filter_cons, hc, if_neg]
      have : c.getText.isEmpty = false := by
        simp [List.isEmpty_iff, hc]
      simp [this, hc, ih]

theorem ns_ul_length (db : UnitsDb) (race : Option Race) (sec : SourceSection)
    (ul : Html) : (ns_ul db race sec ul).length = ns_count_ul ul := by
  unfold ns_ul ns_count_ul
  rw [List.length_flatten, List.map_map]
  congr 1
  refine List.map_congr_left (fun li _ => ?_)
  simp only [Function.comp]
  cases findDesc (isNamed "strong") li with
  | none => cases findDesc (isNamed "ul") li <;> rfl
  | some stg =>
    cases findDesc (isNamed "ul") li with
    | none => rfl
    | some nested => exact ns_nested_length db race sec stg.getText nested

theorem nested_strong_loop_length (db : UnitsDb) :
    ∀ (es : List Html) (race : Option Race) (sec : SourceSection),
      (nested_strong_loop db es race sec).length = ns_count_elems es
  | [], _, _ => rfl
  | e :: rest, race, sec => by
    cases e with
    | txt s =>
      simp only [nested_strong_loop, ns_count_elems]
      rw [nested_strong_loop_length db rest race sec]
      omega
    | tag name cls cs =>
      simp only [nested_strong_loop, ns_count_elems]
      split
      · -- h2
        rename_i hname
        subst hname
        rw [nested_strong_loop_length db rest _ _]
        simp
      · split
        · -- h3
          rename_i hname
          subst hname
          cases hr : ns_race_names.find? (fun p => p.1 = (Html.tag "h3" cls cs).getText) with
          | some p => rw [nested_strong_loop_length db rest _ _]; simp
          | none => rw [nested_strong_loop_length db rest _ _]; simp
        · split
          · -- ul
            rename_i hname
            subst hname
            rw [List.length_append, nested_strong_loop_length db rest _ _,
              ns_ul_length db race sec]
          · -- other tags
            rename_i h2 h3 hul
            rw [nested_strong_loop_length db rest _ _]
            simp [hul]

/-- C6: a change text containing no registered entity name of faction F
resolves to exactly the `{F}-unknown` sentinel — never an empty or malformed
id — and `NestedStrongParser.parse` still emits every (non-empty) change text
unconditionally, one RawChange per visited change, dropping none. -/
theorem C6_unknown_sentinel :
    (∀ (text : PyStr) (F : Race) (db : UnitsDb),
      (∀ e ∈ dbEntries db F, containsSub (lowerS text) (lowerS e.1) = false) →
      (detect_entity_from_text text F db = F.valueStr ++ str "-unknown" ∧
       detect_entity_from_text text F db ≠ [] ∧
       (F.valueStr ++ str "-").isPrefixOf (detect_entity_from_text text F db) = true)) ∧
    (∀ (db : UnitsDb) (soup : Html),
      (nested_strong_parse db soup).length = ns_count soup) := by
  constructor
  · intro text F db h
    have hd := detect_entity_no_match text F db h
    rw [hd]
    refine ⟨rfl, ?_, ?_⟩ <;> cases F <;> decide
  · intro db soup
    unfold nested_strong_parse ns_count
    cases findDesc isBlogSection soup with
    | none => rfl
    | some blog => exact nested_strong_loop_length db blog.childrenL none .UNKNOWN

/-- Witness for C6's sentinel conjunct at a concrete text and catalog. -/
theorem C6_unknown_sentinel_witness :
    detect_entity_from_text (str "Speed increased by 1") Race.TERRAN
        [(Race.TERRAN, [(str "Marine", str "terran-marine")])]
      = Race.TERRAN.valueStr ++ str "-unknown" ∧
    detect_entity_from_text (str "Speed increased by 1") Race.TERRAN
        [(Race.TERRAN, [(str "Marine", str "terran-marine")])] ≠ [] ∧
    (Race.TERRAN.valueStr ++ str "-").isPrefixOf
        (detect_entity_from_text (str "Speed increased by 1") Race.TERRAN
          [(Race.TERRAN, [(str "Marine", str "terran-marine")])]) = true :=
  C6_unknown_sentinel.1 (str "Speed increased by 1") Race.TERRAN
    [(Race.TERRAN, [(str "Marine", str "terran-marine")])] (by decide)

/-- C3: section classification is the priority-ordered, case-insensitive
keyword test of the spec (§4.2): "bug"/"fix" → BugFix, then "co-op"/"coop" →
CoOp, then "versus"/"balance" → VersusBalance, then "general" → General, else
Unknown; in particular "Balance Bug Fixes" classifies as BugFix. -/
theorem C3_section_classifier :
    (∀ t : PyStr, detect_section_type t = classify_spec t) ∧
    detect_section_type (str "Balance Bug Fixes") = SourceSection.BUG_FIXES := by
  refine ⟨fun t => ?_, by rfl⟩
  have key : ∀ lo hi : PyStr, upperS lo = hi → lowerS lo = lo →
      containsSub (upperS t) hi = containsSub (lowerS t) lo := by
    intro lo hi h1 h2
    have := containsSub_upper_eq_lower t lo
    rwa [h1, h2] at this
  have hb := key (str "bug") (str "BUG") rfl rfl
  have hf := key (str "fix") (str "FIX") rfl rfl
  have hco := key (str "co-op") (str "CO-OP") rfl rfl
  have hcoop := key (str "coop") (str "COOP") rfl rfl
  have hv := key (str "versus") (str "VERSUS") rfl rfl
  have hbal := key (str "balance") (str "BALANCE") rfl rfl
  have hg := key (str "general") (str "GENERAL") rfl rfl
  unfold detect_section_type classify_spec
  simp only [hb, hf, hco, hcoop, hv, hbal, hg]
